import Mathlib

/-!
A verification development for the gomme parser-combinator library (Go).

The Go library is embedded shallowly: the generic input type (`Bytes`, i.e.
Go strings viewed as indexable sequences of character units) is modelled as
`List Char`, a parser is a function from input to a `GResult`, and every
combinator below is a direct translation of the corresponding Go function
(`combinators.go`, `containers.go`, `bytes.go`, `characters.go`,
`sequence.go`, `branch.go`, `multi.go`).  Go's zero values (used by the
`Failure` constructor, which declares `var output O`) are modelled by the
`GoZero` class.  Machine integers (`uint` counts and bounds) are modelled as
`Nat`.
-/

/-- The input type: Go's generic `Bytes` (a string), one `Char` per Go
character unit.  The library is ASCII-centric (`rune(input[pos])` converts a
single byte), so a list of characters is a faithful unit-for-unit model. -/
abbrev Str := List Char

/-- `GenericError` from containers.go.  The Go struct wraps an underlying
`Err error`; the library only ever inspects that field through `IsFatal`
(`e.Err != nil`), so the wrapped cause is modelled by its presence: the
Boolean field `Err`. -/
structure GenericError where
  Input : Str
  Err : Bool
  Expected : List String
deriving DecidableEq

/-- `NewGenericError` from containers.go: a recoverable error (no wrapped
cause) from the input and the expected descriptors. -/
def NewGenericError (input : Str) (expected : List String) : GenericError :=
  { Input := input, Err := false, Expected := expected }

/-- `NewError`: the recoverable-error constructor used by branch.go,
multi.go, characters.go and bytes.go.  Its generic definition is not among
the captured source files (only the older rune-based `NewError` in error.go
is); it is the same construction as `NewGenericError`: input plus expected
descriptors, no wrapped cause. -/
def NewError (input : Str) (expected : List String) : GenericError :=
  { Input := input, Err := false, Expected := expected }

/-- `NewFatalError` from error.go: wraps an underlying cause (modelled by
`Err := true`), marking the error fatal. -/
def NewFatalError (input : Str) (expected : List String) : GenericError :=
  { Input := input, Err := true, Expected := expected }

/-- `IsFatal` from containers.go / error.go: `e.Err != nil`. -/
def IsFatal (e : GenericError) : Bool := e.Err

/-- `Result` from combinators.go: output, optional error, remaining input. -/
structure GResult (α : Type) where
  Output : α
  Err : Option GenericError
  Remaining : Str
deriving DecidableEq

/-- `Parser` from combinators.go: a function from input to a result. -/
def Parser (α : Type) : Type := Str → GResult α

/-- Go zero values, used by `Failure` (Go: `var output O`). -/
class GoZero (α : Type) where
  zero : α

instance : GoZero Char := ⟨Char.ofNat 0⟩

instance : GoZero (List α) := ⟨[]⟩

instance : GoZero Int := ⟨0⟩

/-- `PairContainer` from containers.go. -/
structure PairContainer (L R : Type) where
  Left : L
  Right : R
deriving DecidableEq

instance [GoZero α] [GoZero β] : GoZero (PairContainer α β) :=
  ⟨⟨GoZero.zero, GoZero.zero⟩⟩

/-- `Success` from combinators.go. -/
def Success (output : α) (r : Str) : GResult α := ⟨output, none, r⟩

/-- `Failure` from combinators.go: error plus the input; the output is the
Go zero value of the output type. -/
def Failure [GoZero α] (err : GenericError) (input : Str) : GResult α :=
  ⟨GoZero.zero, some err, input⟩

@[simp] theorem Success_Output (o : α) (r : Str) : (Success o r).Output = o := rfl

@[simp] theorem Success_Err (o : α) (r : Str) : (Success o r).Err = none := rfl

@[simp] theorem Success_Remaining (o : α) (r : Str) : (Success o r).Remaining = r := rfl

@[simp] theorem Failure_Output [GoZero α] (e : GenericError) (i : Str) :
    (Failure e i : GResult α).Output = GoZero.zero := rfl

@[simp] theorem Failure_Err [GoZero α] (e : GenericError) (i : Str) :
    (Failure e i : GResult α).Err = some e := rfl

@[simp] theorem Failure_Remaining [GoZero α] (e : GenericError) (i : Str) :
    (Failure e i : GResult α).Remaining = i := rfl

/-! ## Character predicates (characters.go) -/

/-- `IsLowAlpha` from characters.go. -/
def IsLowAlpha (c : Char) : Bool := 'a' ≤ c ∧ c ≤ 'z'

/-- `IsUpAlpha` from characters.go. -/
def IsUpAlpha (c : Char) : Bool := 'A' ≤ c ∧ c ≤ 'Z'

/-- `IsAlpha` from characters.go. -/
def IsAlpha (c : Char) : Bool := IsLowAlpha c || IsUpAlpha c

/-- `IsDigit` from characters.go. -/
def IsDigit (c : Char) : Bool := '0' ≤ c ∧ c ≤ '9'

/-- `IsAlphanumeric` from characters.go. -/
def IsAlphanumeric (c : Char) : Bool := IsAlpha c || IsDigit c

/-- `IsHexDigit` from characters.go. -/
def IsHexDigit (c : Char) : Bool :=
  IsDigit c || ('a' ≤ c ∧ c ≤ 'f' : Bool) || ('A' ≤ c ∧ c ≤ 'F' : Bool)

/-- `IsWhitespace` from characters.go. -/
def IsWhitespace (c : Char) : Bool := c = ' ' ∨ c = '\t' ∨ c = '\n' ∨ c = '\r'

/-! ## Single-unit matchers (characters.go) -/

/-- `Char` from characters.go (named `GChar` here because `Char` is Lean's
character type): fails on empty input or a non-matching first unit, else
consumes exactly one unit. -/
def GChar (character : Char) : Parser Char := fun input =>
  match input with
  | [] => Failure (NewError input [String.mk [character]]) input
  | c :: rest =>
    if c ≠ character then Failure (NewError input [String.mk [character]]) input
    else Success c rest

/-- `AnyChar` from characters.go. -/
def AnyChar : Parser Char := fun input =>
  match input with
  | [] => Failure (NewError input ["AnyChar"]) input
  | c :: rest => Success c rest

/-- `LF` from characters.go. -/
def LF : Parser Char := fun input =>
  match input with
  | [] => Failure (NewError input ["LF"]) input
  | c :: rest =>
    if c ≠ '\n' then Failure (NewError input ["LF"]) input else Success c rest

/-- `CR` from characters.go. -/
def CR : Parser Char := fun input =>
  match input with
  | [] => Failure (NewError input ["CR"]) input
  | c :: rest =>
    if c ≠ '\r' then Failure (NewError input ["CR"]) input else Success c rest

/-- `CRLF` from characters.go: fails when `len(input) < 2` or the first two
units are not `\r\n`; else consumes two units. -/
def CRLF : Parser Str := fun input =>
  match input with
  | c0 :: c1 :: _ =>
    if c0 = '\r' ∧ c1 = '\n' then Success (input.take 2) (input.drop 2)
    else Failure (NewError input ["CRLF"]) input
  | _ => Failure (NewError input ["CRLF"]) input

/-- `OneOf` from characters.go.  The Go loop returns the first collection
member equal to `input[0]`; since it always yields `input[0]` itself, the
loop is equivalent to the membership test `collection.contains`. -/
def OneOf (collection : List Char) : Parser Char := fun input =>
  match input with
  | [] => Failure (NewError input ["OneOf"]) input
  | c :: rest =>
    if collection.contains c then Success c rest
    else Failure (NewError input ["OneOf"]) input

/-- `Satisfy` from characters.go. -/
def Satisfy (predicate : Char → Bool) : Parser Char := fun input =>
  match input with
  | [] => Failure (NewError input ["Satisfy"]) input
  | c :: rest =>
    if ¬ predicate c then Failure (NewError input ["Satisfy"]) input
    else Success c rest

/-- `Space` from characters.go. -/
def Space : Parser Char := fun input =>
  match input with
  | [] => Failure (NewError input ["Space"]) input
  | c :: rest =>
    if c ≠ ' ' then Failure (NewError input ["Space"]) input else Success c rest

/-- `Tab` from characters.go. -/
def Tab : Parser Char := fun input =>
  match input with
  | [] => Failure (NewError input ["Tab"]) input
  | c :: rest =>
    if c ≠ '\t' then Failure (NewError input ["Tab"]) input else Success c rest

/-! ## Character-class parsers (characters.go)

The ten class parsers `Alpha0/1` … `Whitespace1` have literally identical
bodies in characters.go, differing only in the predicate and (for the "1"
variants) the expected-descriptor string; they are factored here through
`class0` / `class1`.  In the Go loops the `last…Pos` counter is incremented
exactly once per completed iteration, so it always equals the loop index at
every exit point; the loops below carry the index `idx` only. -/

/-- The shared loop of the "0"-variant class parsers (and, starting from
index 1, of the "1" variants): scan while the predicate holds, returning
`input[:idx]` / `input[idx:]` at the first non-matching unit or at input
exhaustion. -/
def class0Loop (pred : Char → Bool) (input : Str) : Nat → Str → GResult Str
  | idx, [] => Success (input.take idx) (input.drop idx)
  | idx, c :: rest =>
    if pred c then class0Loop pred input (idx + 1) rest
    else Success (input.take idx) (input.drop idx)

/-- The common body of `Alpha0`, `Alphanumeric0`, `Digit0`, `HexDigit0`,
`Whitespace0`: empty input succeeds as-is, else scan from index 0. -/
def class0 (pred : Char → Bool) : Parser Str := fun input =>
  if input.length = 0 then Success input input
  else class0Loop pred input 0 input

/-- The common body of `Alpha1`, `Alphanumeric1`, `Digit1`, `HexDigit1`,
`Whitespace1`: empty input and a non-matching first unit fail with the
given descriptor, else scan from index 1. -/
def class1 (name : String) (pred : Char → Bool) : Parser Str := fun input =>
  match input with
  | [] => Failure (NewError input [name]) input
  | c :: rest =>
    if ¬ pred c then Failure (NewError input [name]) input
    else class0Loop pred input 1 rest

/-- `Alpha0` from characters.go. -/
def Alpha0 : Parser Str := class0 IsAlpha

/-- `Alpha1` from characters.go. -/
def Alpha1 : Parser Str := class1 "Alpha1" IsAlpha

/-- `Alphanumeric0` from characters.go. -/
def Alphanumeric0 : Parser Str := class0 IsAlphanumeric

/-- `Alphanumeric1` from characters.go (its expected descriptor is the
string "Digit1" in the source). -/
def Alphanumeric1 : Parser Str := class1 "Digit1" IsAlphanumeric

/-- `Digit0` from characters.go. -/
def Digit0 : Parser Str := class0 IsDigit

/-- `Digit1` from characters.go. -/
def Digit1 : Parser Str := class1 "Digit1" IsDigit

/-- `HexDigit0` from characters.go. -/
def HexDigit0 : Parser Str := class0 IsHexDigit

/-- `HexDigit1` from characters.go. -/
def HexDigit1 : Parser Str := class1 "HexDigit1" IsHexDigit

/-- `Whitespace0` from characters.go. -/
def Whitespace0 : Parser Str := class0 IsWhitespace

/-- `Whitespace1` from characters.go (descriptor "WhiteSpace1" as in the
source). -/
def Whitespace1 : Parser Str := class1 "WhiteSpace1" IsWhitespace

/-! ## Span matchers (bytes.go) -/

/-- `Take` from bytes.go.  The descriptor of the empty-input failure is
"TakeUntil" in the source. -/
def Take (count : Nat) : Parser Str := fun input =>
  if input.length = 0 ∧ 0 < count then Failure (NewError input ["TakeUntil"]) input
  else if input.length < count then Failure (NewError input ["Take"]) input
  else Success (input.take count) (input.drop count)

/-- The scan loop of `TakeUntil`: try the sub-parser on `input[pos:]`,
advancing `pos` until it succeeds; `rest` is `input.drop pos` and bounds
the iteration exactly as Go's `pos < len(input)` loop condition does. -/
def takeUntilLoop (p : Parser α) (input : Str) : Nat → Str → GResult Str
  | _, [] => Failure (NewError input ["TakeUntil"]) input
  | pos, _ :: rs =>
    match (p (input.drop pos)).Err with
    | none => Success (input.take pos) (input.drop pos)
    | some _ => takeUntilLoop p input (pos + 1) rs

/-- `TakeUntil` from bytes.go. -/
def TakeUntil (p : Parser α) : Parser Str := fun input =>
  if input.length = 0 then Failure (NewError input ["TakeUntil"]) input
  else takeUntilLoop p input 0 input

/-- The scan loop of `TakeWhileMN` from bytes.go: at each index, first test
`idx == atMost` (break), then the predicate; a failing predicate before
`atLeast` fails the whole parser.  Go's `lastValidPos` counter equals the
loop index at every exit point and is represented by `idx`. -/
def twmnLoop (pred : Char → Bool) (atLeast atMost : Nat) (input : Str) :
    Nat → Str → GResult Str
  | idx, [] => Success (input.take idx) (input.drop idx)
  | idx, c :: rest =>
    if idx = atMost then Success (input.take idx) (input.drop idx)
    else if pred c then twmnLoop pred atLeast atMost input (idx + 1) rest
    else if idx < atLeast then Failure (NewError input ["TakeWhileMN"]) input
    else Success (input.take idx) (input.drop idx)

/-- `TakeWhileMN` from bytes.go: empty input fails, input shorter than
`atLeast` fails, else scan. -/
def TakeWhileMN (atLeast atMost : Nat) (pred : Char → Bool) : Parser Str := fun input =>
  if input.length = 0 then Failure (NewError input ["TakeWhileMN"]) input
  else if input.length < atLeast then Failure (NewError input ["TakeWhileMN"]) input
  else twmnLoop pred atLeast atMost input 0 input

/-- `Token` from bytes.go: succeeds iff the input starts with the literal
token (Go: `strings.HasPrefix`), consuming exactly its length. -/
def Token (token : Str) : Parser Str := fun input =>
  if ¬ token.isPrefixOf input then
    Failure (NewError input ["Token(" ++ String.mk token ++ ")"]) input
  else Success (input.take token.length) (input.drop token.length)

/-- The scan loop of `TakeWhileOneOf` (bytes.go): advance while the unit is
in the collection; a non-member at position 0 fails.  Go builds a hash set
from the collection; membership is `collection.contains` here. -/
def twOneOfLoop (collection : List Char) (expected : String) (input : Str) :
    Nat → Str → GResult Str
  | pos, [] => Success (input.take pos) (input.drop pos)
  | pos, c :: rest =>
    if collection.contains c then twOneOfLoop collection expected input (pos + 1) rest
    else if pos = 0 then Failure (NewError input [expected]) input
    else Success (input.take pos) (input.drop pos)

/-- `TakeWhileOneOf` from bytes.go; the expected descriptor is
`chars(<collection>)` as produced by the Go `fmt.Sprintf`. -/
def TakeWhileOneOf (collection : List Char) : Parser Str := fun input =>
  if input.length = 0 then
    Failure (NewError input ["chars(" ++ String.mk collection ++ ")"]) input
  else twOneOfLoop collection ("chars(" ++ String.mk collection ++ ")") input 0 input

/-! ## Transform and choice combinators (combinators.go) -/

/-- `Map` from combinators.go.  The fallible Go mapping function
`func(PO) (MO, error)` is modelled as `α → Except String β`, the error case
carrying `err.Error()`. -/
def Map (p : Parser α) (fn : α → Except String β) [GoZero β] : Parser β := fun input =>
  match (p input).Err with
  | some _ => Failure (NewGenericError input ["map"]) input
  | none =>
    match fn (p input).Output with
    | Except.error e => Failure (NewGenericError input [e]) input
    | Except.ok output => Success output (p input).Remaining

/-- `Optional` from combinators.go.  The Go body clears `result.Err` when
the error is non-fatal and otherwise keeps it, but then returns
`Success(result.Output, result.Remaining)` — and `Success` builds a fresh
Result whose Err field is nil — so the kept error is never read and the
returned value is always a success. -/
def Optional (p : Parser α) : Parser α := fun input =>
  Success (p input).Output (p input).Remaining

/-- `Peek` from combinators.go. -/
def Peek [GoZero α] (p : Parser α) : Parser α := fun input =>
  match (p input).Err with
  | some e => Failure e input
  | none => Success (p input).Output input

/-- `Recognize` from combinators.go: on success, the payload is
`input[:len(input)-len(result.Remaining)]`.  Go would panic on a negative
slice bound; `Nat` subtraction truncates instead, and the two agree for
every parser whose remaining input is no longer than its input. -/
def Recognize [GoZero α] (p : Parser α) : Parser Str := fun input =>
  match (p input).Err with
  | some e => Failure e input
  | none =>
    Success (input.take (input.length - (p input).Remaining.length)) (p input).Remaining

/-- `Assign` from combinators.go. -/
def Assign [GoZero β] (value : β) (p : Parser α) : Parser β := fun input =>
  match (p input).Err with
  | some e => Failure e input
  | none => Success value (p input).Remaining

/-! ## Sequencing combinators (sequence.go) -/

/-- `Pair` from sequence.go: either child failing is replaced by a fresh
recoverable error tagged "pair", anchored at the original input. -/
def Pair [GoZero α] [GoZero β] (leftParser : Parser α) (rightParser : Parser β) :
    Parser (PairContainer α β) := fun input =>
  match (leftParser input).Err with
  | some _ => Failure (NewGenericError input ["pair"]) input
  | none =>
    match (rightParser (leftParser input).Remaining).Err with
    | some _ => Failure (NewGenericError input ["pair"]) input
    | none =>
      Success
        ⟨(leftParser input).Output, (rightParser (leftParser input).Remaining).Output⟩
        (rightParser (leftParser input).Remaining).Remaining

/-- `Preceded` from sequence.go: either child's error is returned as-is,
anchored at the original input. -/
def Preceded [GoZero β] (pre : Parser α) (p : Parser β) : Parser β := fun input =>
  match (pre input).Err with
  | some e => Failure e input
  | none =>
    match (p (pre input).Remaining).Err with
    | some e => Failure e input
    | none => Success (p (pre input).Remaining).Output (p (pre input).Remaining).Remaining

/-- `SeparatedPair` from sequence.go: left and separator failures are
replaced by fresh "separated pair" errors, a right failure by a fresh
"pair" error (as in the source), all anchored at the original input. -/
def SeparatedPair [GoZero α] [GoZero β] (leftParser : Parser α) (separator : Parser σ)
    (rightParser : Parser β) : Parser (PairContainer α β) := fun input =>
  match (leftParser input).Err with
  | some _ => Failure (NewGenericError input ["separated pair"]) input
  | none =>
    match (separator (leftParser input).Remaining).Err with
    | some _ => Failure (NewGenericError input ["separated pair"]) input
    | none =>
      match (rightParser (separator (leftParser input).Remaining).Remaining).Err with
      | some _ => Failure (NewGenericError input ["pair"]) input
      | none =>
        Success
          ⟨(leftParser input).Output,
            (rightParser (separator (leftParser input).Remaining).Remaining).Output⟩
          (rightParser (separator (leftParser input).Remaining).Remaining).Remaining

/-- The loop of `Sequence` (sequence.go): thread the remaining input
through the parsers in order, collecting outputs; a failing element's error
is returned as-is, anchored at the original input. -/
def sequenceLoop (input : Str) : List (Parser α) → Str → List α → GResult (List α)
  | [], remaining, outputs => Success outputs remaining
  | p :: ps, remaining, outputs =>
    match (p remaining).Err with
    | some e => Failure e input
    | none => sequenceLoop input ps (p remaining).Remaining (outputs ++ [(p remaining).Output])

/-- `Sequence` from sequence.go (variadic in Go; the parser list here). -/
def Sequence (parsers : List (Parser α)) : Parser (List α) := fun input =>
  sequenceLoop input parsers input []

/-- `Terminated` from sequence.go: either child's error is returned as-is,
anchored at the original input; on success the main parser's output is kept. -/
def Terminated [GoZero α] (p : Parser α) (suffix : Parser σ) : Parser α := fun input =>
  match (p input).Err with
  | some e => Failure e input
  | none =>
    match (suffix (p input).Remaining).Err with
    | some e => Failure e input
    | none => Success (p input).Output (suffix (p input).Remaining).Remaining

/-- `Delimited` from sequence.go. -/
def Delimited [GoZero β] (pre : Parser α) (p : Parser β) (suffix : Parser σ) :
    Parser β := fun input =>
  Terminated (Preceded pre p) suffix input

/-! ## Choice (branch.go) -/

/-- The trial loop of `Alternative` (branch.go): parsers are tried in order
on the same input; any failure — fatal or not — moves on to the next
parser; when all fail a fresh "Alternative" error is produced. -/
def altLoop [GoZero α] : List (Parser α) → Str → GResult α
  | [], input => Failure (NewError input ["Alternative"]) input
  | p :: rest, input =>
    match (p input).Err with
    | none => p input
    | some _ => altLoop rest input

/-- `Alternative` from branch.go (named `AlternativeP` here because
`Alternative` is a Lean core type class; variadic in Go). -/
def AlternativeP [GoZero α] (parsers : List (Parser α)) : Parser α := fun input =>
  altLoop parsers input

/-! ## Repetition combinators (multi.go) -/

/-- The loop of `Count` (multi.go): run the parser `n` more times; a
failing application's error is returned as-is, anchored at the original
input. -/
def countLoop (p : Parser α) (input : Str) : Nat → Str → List α → GResult (List α)
  | 0, remaining, outputs => Success outputs remaining
  | n + 1, remaining, outputs =>
    match (p remaining).Err with
    | some e => Failure e input
    | none => countLoop p input n (p remaining).Remaining (outputs ++ [(p remaining).Output])

/-- `Count` from multi.go: fails up-front on empty input or a zero count. -/
def Count (p : Parser α) (count : Nat) : Parser (List α) := fun input =>
  if input.length = 0 ∨ count = 0 then Failure (NewError input ["Count"]) input
  else countLoop p input count input []

/-- The shared loop of `Many0` and `Many1` (multi.go; their loop bodies are
identical apart from the error descriptor `tag`): iterate the parser until
it fails, returning the collected outputs; an iteration that succeeds
without consuming trips the infinite-loop guard.  The Go loop is unbounded;
here it carries fuel, and the fuel-exhausted case returns the same guard
failure.  For any parser that never lengthens the remaining input, every
iteration strictly shrinks `remaining`, so fuel `input.length + 1` is never
exhausted (`manyLoop_fuel` below). -/
def manyLoop (tag : String) (p : Parser α) (input : Str) :
    Nat → Str → List α → GResult (List α)
  | 0, _, _ => Failure (NewError input [tag]) input
  | fuel + 1, remaining, results =>
    match (p remaining).Err with
    | some _ => Success results remaining
    | none =>
      if (p remaining).Remaining.length = remaining.length then
        Failure (NewError input [tag]) input
      else
        manyLoop tag p input fuel (p remaining).Remaining (results ++ [(p remaining).Output])

/-- `Many0` from multi.go. -/
def Many0 (p : Parser α) : Parser (List α) := fun input =>
  manyLoop "Many0" p input (input.length + 1) input []

/-- `Many1` from multi.go: the first application's failure is returned
as-is; zero consumption by the first application trips the guard; then the
same loop as `Many0` with descriptor "Many1". -/
def Many1 (p : Parser α) : Parser (List α) := fun input =>
  match (p input).Err with
  | some e => Failure e input
  | none =>
    if (p input).Remaining.length = input.length then
      Failure (NewError input ["Many1"]) input
    else
      manyLoop "Many1" p input (input.length + 1) (p input).Remaining [(p input).Output]

/-- The shared loop of `SeparatedList0` and `SeparatedList1` (multi.go;
their loop bodies are identical, both tagging guard failures
"SeparatedList0"): a failing separator ends the list at `remaining`; a
separator that consumes nothing trips the guard; a failing element after a
successful separator ends the list rewound to `remaining`, before the
separator.  As in `manyLoop`, the unbounded Go loop carries fuel here, the
fuel-exhausted case returning the same guard failure; each iteration
strictly shrinks `remaining` for parsers that never lengthen the input. -/
def sepListLoop (p : Parser α) (separator : Parser σ) (input : Str) :
    Nat → Str → List α → GResult (List α)
  | 0, _, _ => Failure (NewError input ["SeparatedList0"]) input
  | fuel + 1, remaining, results =>
    match (separator remaining).Err with
    | some _ => Success results remaining
    | none =>
      if (separator remaining).Remaining.length = remaining.length then
        Failure (NewError input ["SeparatedList0"]) input
      else
        match (p (separator remaining).Remaining).Err with
        | some _ => Success results remaining
        | none =>
          sepListLoop p separator input fuel
            (p (separator remaining).Remaining).Remaining
            (results ++ [(p (separator remaining).Remaining).Output])

/-- `SeparatedList0` from multi.go: a failing first element yields an empty
list without consuming; a first element that consumes nothing trips the
guard; then the separator/element loop. -/
def SeparatedList0 (p : Parser α) (separator : Parser σ) : Parser (List α) := fun input =>
  match (p input).Err with
  | some _ => Success [] input
  | none =>
    if (p input).Remaining.length = input.length then
      Failure (NewError input ["SeparatedList0"]) input
    else
      sepListLoop p separator input (input.length + 1) (p input).Remaining [(p input).Output]

/-- `SeparatedList1` from multi.go: a failing first element propagates its
error; the guard failure descriptor is "SeparatedList0" as in the source. -/
def SeparatedList1 (p : Parser α) (separator : Parser σ) : Parser (List α) := fun input =>
  match (p input).Err with
  | some e => Failure e input
  | none =>
    if (p input).Remaining.length = input.length then
      Failure (NewError input ["SeparatedList0"]) input
    else
      sepListLoop p separator input (input.length + 1) (p input).Remaining [(p input).Output]

/-! ## The greedy-run characterization of the scanning parsers -/

/-- The length of the maximal prefix of `s` whose units all satisfy
`pred` — the "greedy run" that the scanning parsers consume. -/
def runLen (pred : Char → Bool) : Str → Nat
  | [] => 0
  | c :: rest => if pred c then runLen pred rest + 1 else 0

theorem runLen_le_length (pred : Char → Bool) (s : Str) : runLen pred s ≤ s.length := by
  induction s with
  | nil => simp [runLen]
  | cons c rest ih =>
    simp only [runLen, List.length_cons]
    split
    · omega
    · omega

theorem class0Loop_eq (pred : Char → Bool) (s : Str) :
    ∀ rest idx, idx + runLen pred rest = runLen pred s →
      class0Loop pred s idx rest =
        Success (s.take (runLen pred s)) (s.drop (runLen pred s)) := by
  intro rest
  induction rest with
  | nil =>
    intro idx h
    simp only [runLen] at h
    simp only [class0Loop]
    have hidx : idx = runLen pred s := by omega
    rw [hidx]
  | cons c rest ih =>
    intro idx h
    simp only [runLen] at h
    simp only [class0Loop]
    cases hc : pred c with
    | true =>
      simp only [hc, if_true] at h ⊢
      exact ih (idx + 1) (by omega)
    | false =>
      simp only [hc, Bool.false_eq_true, if_false] at h ⊢
      have hidx : idx = runLen pred s := by omega
      rw [hidx]

theorem class0_eq (pred : Char → Bool) (s : Str) :
    class0 pred s = Success (s.take (runLen pred s)) (s.drop (runLen pred s)) := by
  unfold class0
  split
  · rename_i h0
    have hs : s = [] := List.length_eq_zero.mp h0
    subst hs
    rfl
  · exact class0Loop_eq pred s s 0 (by simp)

theorem class1_eq (name : String) (pred : Char → Bool) (s : Str) :
    class1 name pred s =
      if runLen pred s = 0 then Failure (NewError s [name]) s
      else Success (s.take (runLen pred s)) (s.drop (runLen pred s)) := by
  unfold class1
  cases s with
  | nil => simp [runLen]
  | cons c rest =>
    cases hc : pred c with
    | false =>
      simp [runLen, hc]
    | true =>
      have hrun : runLen pred (c :: rest) = runLen pred rest + 1 := by
        simp [runLen, hc]
      simp only [hc, not_true_eq_false, if_false, hrun]
      rw [class0Loop_eq pred (c :: rest) rest 1 (by omega)]
      simp [hrun]

theorem twmnLoop_spec (pred : Char → Bool) (atLeast atMost : Nat) (s : Str) :
    ∀ rest idx, rest = s.drop idx → idx + runLen pred rest = runLen pred s →
      idx ≤ atMost →
      twmnLoop pred atLeast atMost s idx rest =
        if runLen pred s < atLeast ∧ runLen pred s < atMost ∧ runLen pred s < s.length
        then Failure (NewError s ["TakeWhileMN"]) s
        else Success (s.take (min (runLen pred s) atMost))
               (s.drop (min (runLen pred s) atMost)) := by
  intro rest
  induction rest with
  | nil =>
    intro idx hdrop hrun hmost
    simp only [runLen] at hrun
    have hlen : s.length ≤ idx := List.drop_eq_nil_iff.mp hdrop.symm
    have hrle : runLen pred s ≤ s.length := runLen_le_length pred s
    have hk : runLen pred s = idx := by omega
    have hkl : runLen pred s = s.length := by omega
    simp only [twmnLoop]
    rw [if_neg (by omega)]
    have hmin : min (runLen pred s) atMost = idx := by omega
    rw [hmin]
  | cons c rest ih =>
    intro idx hdrop hrun hmost
    have hlt : idx < s.length := by
      by_contra hge
      have : s.drop idx = [] := List.drop_eq_nil_iff.mpr (by omega)
      rw [← hdrop] at this
      exact List.cons_ne_nil c rest this
    simp only [twmnLoop]
    by_cases hbreak : idx = atMost
    · rw [if_pos hbreak]
      have hk : atMost ≤ runLen pred s := by omega
      rw [if_neg (by omega)]
      have hmin : min (runLen pred s) atMost = idx := by omega
      rw [hmin]
    · rw [if_neg hbreak]
      cases hc : pred c with
      | true =>
        simp only [runLen, hc, if_true] at hrun
        rw [if_pos rfl]
        exact ih (idx + 1)
          (by rw [← List.tail_drop, ← hdrop, List.tail_cons])
          (by omega) (by omega)
      | false =>
        simp only [runLen, hc, Bool.false_eq_true, if_false] at hrun
        simp only [hc, Bool.false_eq_true, if_false]
        have hk : runLen pred s = idx := by omega
        by_cases hmin : idx < atLeast
        · rw [if_pos hmin, if_pos (by omega)]
        · rw [if_neg hmin, if_neg (by omega)]
          have hm : min (runLen pred s) atMost = idx := by omega
          rw [hm]

theorem TakeWhileMN_spec (atLeast atMost : Nat) (pred : Char → Bool) (s : Str) :
    TakeWhileMN atLeast atMost pred s =
      if s.length = 0 ∨ s.length < atLeast ∨
         (runLen pred s < atLeast ∧ runLen pred s < atMost ∧ runLen pred s < s.length)
      then Failure (NewError s ["TakeWhileMN"]) s
      else Success (s.take (min (runLen pred s) atMost))
             (s.drop (min (runLen pred s) atMost)) := by
  unfold TakeWhileMN
  by_cases h0 : s.length = 0
  · rw [if_pos h0, if_pos (Or.inl h0)]
  · rw [if_neg h0]
    by_cases h1 : s.length < atLeast
    · rw [if_pos h1, if_pos (Or.inr (Or.inl h1))]
    · rw [if_neg h1]
      rw [twmnLoop_spec pred atLeast atMost s s 0 (by simp) (by simp) (by omega)]
      by_cases h2 : runLen pred s < atLeast ∧ runLen pred s < atMost ∧ runLen pred s < s.length
      · rw [if_pos h2, if_pos (Or.inr (Or.inr h2))]
      · rw [if_neg h2, if_neg (by tauto)]

/-- Observable agreement of two parse results: same output, same remaining
input, same success/failure status (the expected-descriptor strings inside
the errors may differ). -/
def Agrees (r₁ r₂ : GResult α) : Prop :=
  r₁.Output = r₂.Output ∧ r₁.Remaining = r₂.Remaining ∧ (r₁.Err = none ↔ r₂.Err = none)

theorem class0_eq_twmn (pred : Char → Bool) (max : Nat) (s : Str)
    (hs : s ≠ []) (hmax : s.length ≤ max) :
    class0 pred s = TakeWhileMN 0 max pred s := by
  rw [class0_eq, TakeWhileMN_spec]
  have hlen : s.length ≠ 0 := fun h => hs (List.length_eq_zero.mp h)
  rw [if_neg (by omega)]
  have hmin : min (runLen pred s) max = runLen pred s := by
    have := runLen_le_length pred s
    omega
  rw [hmin]

theorem class1_agrees_twmn (name : String) (pred : Char → Bool) (max : Nat) (s : Str)
    (hmax : s.length ≤ max) :
    Agrees (class1 name pred s) (TakeWhileMN 1 max pred s) := by
  rw [class1_eq, TakeWhileMN_spec]
  have hrle := runLen_le_length pred s
  by_cases hk : runLen pred s = 0
  · rw [if_pos hk]
    by_cases h0 : s.length = 0
    · rw [if_pos (Or.inl h0)]
      exact ⟨rfl, rfl, by simp⟩
    · rw [if_pos (Or.inr (Or.inr (by omega)))]
      exact ⟨rfl, rfl, by simp⟩
  · rw [if_neg hk, if_neg (by omega)]
    have hmin : min (runLen pred s) max = runLen pred s := by omega
    rw [hmin]
    exact ⟨rfl, rfl, Iff.rfl⟩

/-! ## Soundness: remaining input is a suffix; failures rewind

`Sound p` is the two-part contract of §4.1/§8 of the library's intended
behavior: the remaining input of any outcome is a suffix of the input, and
a failure's remaining input is the input itself. -/

/-- A parser is sound when its remaining input is always a suffix of its
input and every failure reports the untouched input. -/
def Sound (p : Parser α) : Prop :=
  ∀ s, (p s).Remaining <:+ s ∧ ((p s).Err ≠ none → (p s).Remaining = s)

theorem sound_GChar (c : Char) : Sound (GChar c) := by
  intro s
  cases s with
  | nil => simp [GChar]
  | cons a rest =>
    simp only [GChar]
    split
    · simp
    · simpa using List.suffix_cons a rest

theorem sound_AnyChar : Sound AnyChar := by
  intro s
  cases s with
  | nil => simp [AnyChar]
  | cons a rest => simpa [AnyChar] using List.suffix_cons a rest

theorem sound_LF : Sound LF := by
  intro s
  cases s with
  | nil => simp [LF]
  | cons a rest =>
    simp only [LF]
    split
    · simp
    · simpa using List.suffix_cons a rest

theorem sound_CR : Sound CR := by
  intro s
  cases s with
  | nil => simp [CR]
  | cons a rest =>
    simp only [CR]
    split
    · simp
    · simpa using List.suffix_cons a rest

theorem sound_CRLF : Sound CRLF := by
  intro s
  match s with
  | [] => simp [CRLF]
  | [a] => simp [CRLF]
  | a :: b :: rest =>
    simp only [CRLF]
    split
    · simpa using List.drop_suffix 2 (a :: b :: rest)
    · simp

theorem sound_OneOf (collection : List Char) : Sound (OneOf collection) := by
  intro s
  cases s with
  | nil => simp [OneOf]
  | cons a rest =>
    simp only [OneOf]
    split
    · simpa using List.suffix_cons a rest
    · simp

theorem sound_Satisfy (predicate : Char → Bool) : Sound (Satisfy predicate) := by
  intro s
  cases s with
  | nil => simp [Satisfy]
  | cons a rest =>
    simp only [Satisfy]
    split
    · simp
    · simpa using List.suffix_cons a rest

theorem sound_Space : Sound Space := by
  intro s
  cases s with
  | nil => simp [Space]
  | cons a rest =>
    simp only [Space]
    split
    · simp
    · simpa using List.suffix_cons a rest

theorem sound_Tab : Sound Tab := by
  intro s
  cases s with
  | nil => simp [Tab]
  | cons a rest =>
    simp only [Tab]
    split
    · simp
    · simpa using List.suffix_cons a rest

theorem sound_class0 (pred : Char → Bool) : Sound (class0 pred) := by
  intro s
  rw [class0_eq]
  simpa using List.drop_suffix (runLen pred s) s

theorem sound_class1 (name : String) (pred : Char → Bool) : Sound (class1 name pred) := by
  intro s
  rw [class1_eq]
  split
  · simp
  · simpa using List.drop_suffix (runLen pred s) s

theorem sound_TakeWhileMN (atLeast atMost : Nat) (pred : Char → Bool) :
    Sound (TakeWhileMN atLeast atMost pred) := by
  intro s
  rw [TakeWhileMN_spec]
  split
  · simp
  · simpa using List.drop_suffix (min (runLen pred s) atMost) s

theorem sound_Take (count : Nat) : Sound (Take count) := by
  intro s
  simp only [Take]
  split
  · simp
  · split
    · simp
    · simpa using List.drop_suffix count s

theorem takeUntilLoop_sound (p : Parser α) (input : Str) :
    ∀ rest pos,
      (takeUntilLoop p input pos rest).Remaining <:+ input ∧
      ((takeUntilLoop p input pos rest).Err ≠ none →
        (takeUntilLoop p input pos rest).Remaining = input) := by
  intro rest
  induction rest with
  | nil => intro pos; simp [takeUntilLoop]
  | cons a rs ih =>
    intro pos
    simp only [takeUntilLoop]
    cases (p (input.drop pos)).Err with
    | none => simpa using List.drop_suffix pos input
    | some e => exact ih (pos + 1)

theorem sound_TakeUntil (p : Parser α) : Sound (TakeUntil p) := by
  intro s
  simp only [TakeUntil]
  split
  · simp
  · exact takeUntilLoop_sound p s s 0

theorem twOneOfLoop_sound (collection : List Char) (expected : String) (input : Str) :
    ∀ rest pos,
      (twOneOfLoop collection expected input pos rest).Remaining <:+ input ∧
      ((twOneOfLoop collection expected input pos rest).Err ≠ none →
        (twOneOfLoop collection expected input pos rest).Remaining = input) := by
  intro rest
  induction rest with
  | nil => intro pos; simpa [twOneOfLoop] using List.drop_suffix pos input
  | cons a rs ih =>
    intro pos
    simp only [twOneOfLoop]
    split
    · exact ih (pos + 1)
    · split
      · simp
      · simpa using List.drop_suffix pos input

theorem sound_TakeWhileOneOf (collection : List Char) : Sound (TakeWhileOneOf collection) := by
  intro s
  simp only [TakeWhileOneOf]
  split
  · simp
  · exact twOneOfLoop_sound collection _ s s 0

theorem sound_Token (token : Str) : Sound (Token token) := by
  intro s
  simp only [Token]
  split
  · simp
  · simpa using List.drop_suffix token.length s

theorem sound_Map [GoZero β] {p : Parser α} (fn : α → Except String β) (hp : Sound p) :
    Sound (Map p fn) := by
  intro s
  simp only [Map]
  cases hE : (p s).Err with
  | some e => simp
  | none =>
    cases fn (p s).Output with
    | error e => simp
    | ok o => exact ⟨(hp s).1, by simp⟩

theorem sound_Optional {p : Parser α} (hp : Sound p) : Sound (Optional p) := by
  intro s
  exact ⟨(hp s).1, by simp [Optional]⟩

theorem sound_Peek [GoZero α] {p : Parser α} : Sound (Peek p) := by
  intro s
  simp only [Peek]
  cases hE : (p s).Err with
  | some e => simp
  | none => simp

theorem sound_Recognize [GoZero α] {p : Parser α} (hp : Sound p) : Sound (Recognize p) := by
  intro s
  simp only [Recognize]
  cases hE : (p s).Err with
  | some e => simp
  | none => exact ⟨(hp s).1, by simp⟩

theorem sound_Assign [GoZero β] (value : β) {p : Parser α} (hp : Sound p) :
    Sound (Assign value p) := by
  intro s
  simp only [Assign]
  cases hE : (p s).Err with
  | some e => simp
  | none => exact ⟨(hp s).1, by simp⟩

theorem sound_Pair [GoZero α] [GoZero β] {l : Parser α} {r : Parser β}
    (hl : Sound l) (hr : Sound r) : Sound (Pair l r) := by
  intro s
  simp only [Pair]
  cases hL : (l s).Err with
  | some e => simp
  | none =>
    cases hR : (r (l s).Remaining).Err with
    | some e => simp
    | none => exact ⟨((hr (l s).Remaining).1).trans ((hl s).1), by simp⟩

theorem sound_Preceded [GoZero β] {pre : Parser α} {p : Parser β}
    (hpre : Sound pre) (hp : Sound p) : Sound (Preceded pre p) := by
  intro s
  simp only [Preceded]
  cases hL : (pre s).Err with
  | some e => simp
  | none =>
    cases hR : (p (pre s).Remaining).Err with
    | some e => simp
    | none => exact ⟨((hp (pre s).Remaining).1).trans ((hpre s).1), by simp⟩

theorem sound_SeparatedPair [GoZero α] [GoZero β] {l : Parser α} {sep : Parser σ}
    {r : Parser β} (hl : Sound l) (hsep : Sound sep) (hr : Sound r) :
    Sound (SeparatedPair l sep r) := by
  intro s
  simp only [SeparatedPair]
  cases hL : (l s).Err with
  | some e => simp
  | none =>
    cases hS : (sep (l s).Remaining).Err with
    | some e => simp
    | none =>
      cases hR : (r (sep (l s).Remaining).Remaining).Err with
      | some e => simp
      | none =>
        refine ⟨?_, by simp⟩
        exact ((hr _).1).trans (((hsep _).1).trans ((hl s).1))

theorem sound_Terminated [GoZero α] {p : Parser α} {suffix : Parser σ}
    (hp : Sound p) (hsuffix : Sound suffix) : Sound (Terminated p suffix) := by
  intro s
  simp only [Terminated]
  cases hL : (p s).Err with
  | some e => simp
  | none =>
    cases hR : (suffix (p s).Remaining).Err with
    | some e => simp
    | none => exact ⟨((hsuffix _).1).trans ((hp s).1), by simp⟩

theorem sound_Delimited [GoZero β] {pre : Parser α} {p : Parser β} {suffix : Parser σ}
    (hpre : Sound pre) (hp : Sound p) (hsuffix : Sound suffix) :
    Sound (Delimited pre p suffix) := by
  intro s
  exact sound_Terminated (sound_Preceded hpre hp) hsuffix s

theorem sequenceLoop_sound (input : Str) :
    ∀ ps : List (Parser α), (∀ q ∈ ps, Sound q) →
      ∀ remaining acc, remaining <:+ input →
        (sequenceLoop input ps remaining acc).Remaining <:+ input ∧
        ((sequenceLoop input ps remaining acc).Err ≠ none →
          (sequenceLoop input ps remaining acc).Remaining = input) := by
  intro ps
  induction ps with
  | nil =>
    intro _ remaining acc h
    simpa [sequenceLoop] using h
  | cons p ps ih =>
    intro hps remaining acc h
    simp only [sequenceLoop]
    cases hE : (p remaining).Err with
    | some e => simp
    | none =>
      exact ih (fun q hq => hps q (List.mem_cons_of_mem p hq)) _ _
        (((hps p (List.mem_cons_self p ps)) remaining).1.trans h)

theorem sound_Sequence {ps : List (Parser α)} (hps : ∀ q ∈ ps, Sound q) :
    Sound (Sequence ps) := by
  intro s
  exact sequenceLoop_sound s ps hps s [] (List.suffix_refl s)

theorem altLoop_sound [GoZero α] :
    ∀ ps : List (Parser α), (∀ q ∈ ps, Sound q) →
      ∀ input,
        (altLoop ps input).Remaining <:+ input ∧
        ((altLoop ps input).Err ≠ none → (altLoop ps input).Remaining = input) := by
  intro ps
  induction ps with
  | nil => intro _ input; simp [altLoop]
  | cons p ps ih =>
    intro hps input
    simp only [altLoop]
    cases hE : (p input).Err with
    | none =>
      exact ⟨((hps p (List.mem_cons_self p ps)) input).1, fun hne => absurd hE hne⟩
    | some e => exact ih (fun q hq => hps q (List.mem_cons_of_mem p hq)) input

theorem sound_AlternativeP [GoZero α] {ps : List (Parser α)} (hps : ∀ q ∈ ps, Sound q) :
    Sound (AlternativeP ps) := by
  intro s
  exact altLoop_sound ps hps s

theorem countLoop_sound {p : Parser α} (hp : Sound p) (input : Str) :
    ∀ n remaining acc, remaining <:+ input →
      (countLoop p input n remaining acc).Remaining <:+ input ∧
      ((countLoop p input n remaining acc).Err ≠ none →
        (countLoop p input n remaining acc).Remaining = input) := by
  intro n
  induction n with
  | zero =>
    intro remaining acc h
    simpa [countLoop] using h
  | succ n ih =>
    intro remaining acc h
    simp only [countLoop]
    cases hE : (p remaining).Err with
    | some e => simp
    | none => exact ih _ _ (((hp remaining).1).trans h)

theorem sound_Count {p : Parser α} (hp : Sound p) (count : Nat) : Sound (Count p count) := by
  intro s
  simp only [Count]
  split
  · simp
  · exact countLoop_sound hp s count s [] (List.suffix_refl s)

theorem manyLoop_sound (tag : String) {p : Parser α} (hp : Sound p) (input : Str) :
    ∀ fuel remaining acc, remaining <:+ input →
      (manyLoop tag p input fuel remaining acc).Remaining <:+ input ∧
      ((manyLoop tag p input fuel remaining acc).Err ≠ none →
        (manyLoop tag p input fuel remaining acc).Remaining = input) := by
  intro fuel
  induction fuel with
  | zero => intro remaining acc h; simp [manyLoop]
  | succ fuel ih =>
    intro remaining acc h
    simp only [manyLoop]
    split
    · simpa using h
    · split
      · simp
      · exact ih _ _ (((hp remaining).1).trans h)

theorem sound_Many0 {p : Parser α} (hp : Sound p) : Sound (Many0 p) := by
  intro s
  exact manyLoop_sound "Many0" hp s (s.length + 1) s [] (List.suffix_refl s)

theorem sound_Many1 {p : Parser α} (hp : Sound p) : Sound (Many1 p) := by
  intro s
  simp only [Many1]
  split
  · simp
  · split
    · simp
    · exact manyLoop_sound "Many1" hp s (s.length + 1) (p s).Remaining _ ((hp s).1)

theorem sepListLoop_sound {p : Parser α} {separator : Parser σ}
    (hp : Sound p) (hsep : Sound separator) (input : Str) :
    ∀ fuel remaining acc, remaining <:+ input →
      (sepListLoop p separator input fuel remaining acc).Remaining <:+ input ∧
      ((sepListLoop p separator input fuel remaining acc).Err ≠ none →
        (sepListLoop p separator input fuel remaining acc).Remaining = input) := by
  intro fuel
  induction fuel with
  | zero => intro remaining acc h; simp [sepListLoop]
  | succ fuel ih =>
    intro remaining acc h
    simp only [sepListLoop]
    split
    · simpa using h
    · split
      · simp
      · split
        · simpa using h
        · exact ih _ _ ((((hp _).1).trans ((hsep remaining).1)).trans h)

theorem sound_SeparatedList0 {p : Parser α} {separator : Parser σ}
    (hp : Sound p) (hsep : Sound separator) : Sound (SeparatedList0 p separator) := by
  intro s
  simp only [SeparatedList0]
  split
  · simp
  · split
    · simp
    · exact sepListLoop_sound hp hsep s (s.length + 1) (p s).Remaining _ ((hp s).1)

theorem sound_SeparatedList1 {p : Parser α} {separator : Parser σ}
    (hp : Sound p) (hsep : Sound separator) : Sound (SeparatedList1 p separator) := by
  intro s
  simp only [SeparatedList1]
  split
  · simp
  · split
    · simp
    · exact sepListLoop_sound hp hsep s (s.length + 1) (p s).Remaining _ ((hp s).1)

/-! ## The closure of the library's primitives and combinators

`Lib p` holds exactly when `p` is built from the library's primitive
matchers and combinators (the numeric parsers of numbers.go, which delegate
to `strconv`, are compositions of the constructors below with a final
conversion step and are not needed by any claim). -/

/-- The parsers built from the library's primitives and combinators. -/
inductive Lib : {α : Type} → Parser α → Prop where
  | gchar (c : Char) : Lib (GChar c)
  | anyChar : Lib AnyChar
  | lf : Lib LF
  | cr : Lib CR
  | crlf : Lib CRLF
  | oneOf (collection : List Char) : Lib (OneOf collection)
  | satisfy (predicate : Char → Bool) : Lib (Satisfy predicate)
  | space : Lib Space
  | tab : Lib Tab
  | alpha0 : Lib Alpha0
  | alpha1 : Lib Alpha1
  | alphanumeric0 : Lib Alphanumeric0
  | alphanumeric1 : Lib Alphanumeric1
  | digit0 : Lib Digit0
  | digit1 : Lib Digit1
  | hexDigit0 : Lib HexDigit0
  | hexDigit1 : Lib HexDigit1
  | whitespace0 : Lib Whitespace0
  | whitespace1 : Lib Whitespace1
  | take (count : Nat) : Lib (Take count)
  | takeUntil {α : Type} {p : Parser α} : Lib p → Lib (TakeUntil p)
  | takeWhileMN (atLeast atMost : Nat) (pred : Char → Bool) :
      Lib (TakeWhileMN atLeast atMost pred)
  | takeWhileOneOf (collection : List Char) : Lib (TakeWhileOneOf collection)
  | token (t : Str) : Lib (Token t)
  | map {α β : Type} [GoZero β] {p : Parser α} (fn : α → Except String β) :
      Lib p → Lib (Map p fn)
  | optional {α : Type} {p : Parser α} : Lib p → Lib (Optional p)
  | peek {α : Type} [GoZero α] {p : Parser α} : Lib p → Lib (Peek p)
  | recognize {α : Type} [GoZero α] {p : Parser α} : Lib p → Lib (Recognize p)
  | assign {α β : Type} [GoZero β] (value : β) {p : Parser α} :
      Lib p → Lib (Assign value p)
  | pair {α β : Type} [GoZero α] [GoZero β] {l : Parser α} {r : Parser β} :
      Lib l → Lib r → Lib (Pair l r)
  | preceded {α β : Type} [GoZero β] {pre : Parser α} {p : Parser β} :
      Lib pre → Lib p → Lib (Preceded pre p)
  | separatedPair {α β σ : Type} [GoZero α] [GoZero β] {l : Parser α}
      {sep : Parser σ} {r : Parser β} :
      Lib l → Lib sep → Lib r → Lib (SeparatedPair l sep r)
  | sequence {α : Type} {ps : List (Parser α)} :
      (∀ q ∈ ps, Lib q) → Lib (Sequence ps)
  | terminated {α σ : Type} [GoZero α] {p : Parser α} {suffix : Parser σ} :
      Lib p → Lib suffix → Lib (Terminated p suffix)
  | delimited {α β σ : Type} [GoZero β] {pre : Parser α} {p : Parser β}
      {suffix : Parser σ} :
      Lib pre → Lib p → Lib suffix → Lib (Delimited pre p suffix)
  | alternativeP {α : Type} [GoZero α] {ps : List (Parser α)} :
      (∀ q ∈ ps, Lib q) → Lib (AlternativeP ps)
  | count {α : Type} {p : Parser α} (n : Nat) : Lib p → Lib (Count p n)
  | many0 {α : Type} {p : Parser α} : Lib p → Lib (Many0 p)
  | many1 {α : Type} {p : Parser α} : Lib p → Lib (Many1 p)
  | separatedList0 {α σ : Type} {p : Parser α} {sep : Parser σ} :
      Lib p → Lib sep → Lib (SeparatedList0 p sep)
  | separatedList1 {α σ : Type} {p : Parser α} {sep : Parser σ} :
      Lib p → Lib sep → Lib (SeparatedList1 p sep)

/-- Every parser built from the library's primitives and combinators is
sound: its remaining input is a suffix of its input, and its failures
report the untouched input. -/
theorem libSound : ∀ {α : Type} {p : Parser α}, Lib p → Sound p := by
  intro α p h
  induction h with
  | gchar c => exact sound_GChar c
  | anyChar => exact sound_AnyChar
  | lf => exact sound_LF
  | cr => exact sound_CR
  | crlf => exact sound_CRLF
  | oneOf collection => exact sound_OneOf collection
  | satisfy predicate => exact sound_Satisfy predicate
  | space => exact sound_Space
  | tab => exact sound_Tab
  | alpha0 => exact sound_class0 IsAlpha
  | alpha1 => exact sound_class1 "Alpha1" IsAlpha
  | alphanumeric0 => exact sound_class0 IsAlphanumeric
  | alphanumeric1 => exact sound_class1 "Digit1" IsAlphanumeric
  | digit0 => exact sound_class0 IsDigit
  | digit1 => exact sound_class1 "Digit1" IsDigit
  | hexDigit0 => exact sound_class0 IsHexDigit
  | hexDigit1 => exact sound_class1 "HexDigit1" IsHexDigit
  | whitespace0 => exact sound_class0 IsWhitespace
  | whitespace1 => exact sound_class1 "WhiteSpace1" IsWhitespace
  | take count => exact sound_Take count
  | takeUntil _ _ => exact sound_TakeUntil _
  | takeWhileMN atLeast atMost pred => exact sound_TakeWhileMN atLeast atMost pred
  | takeWhileOneOf collection => exact sound_TakeWhileOneOf collection
  | token t => exact sound_Token t
  | map fn _ ih => exact sound_Map fn ih
  | optional _ ih => exact sound_Optional ih
  | peek _ _ => exact sound_Peek
  | recognize _ ih => exact sound_Recognize ih
  | assign value _ ih => exact sound_Assign value ih
  | pair _ _ ihl ihr => exact sound_Pair ihl ihr
  | preceded _ _ ihpre ihp => exact sound_Preceded ihpre ihp
  | separatedPair _ _ _ ihl ihsep ihr => exact sound_SeparatedPair ihl ihsep ihr
  | sequence _ ih => exact sound_Sequence ih
  | terminated _ _ ihp ihs => exact sound_Terminated ihp ihs
  | delimited _ _ _ ihpre ihp ihs => exact sound_Delimited ihpre ihp ihs
  | alternativeP _ ih => exact sound_AlternativeP ih
  | count n _ ih => exact sound_Count ih n
  | many0 _ ih => exact sound_Many0 ih
  | many1 _ ih => exact sound_Many1 ih
  | separatedList0 _ _ ihp ihsep => exact sound_SeparatedList0 ihp ihsep
  | separatedList1 _ _ ihp ihsep => exact sound_SeparatedList1 ihp ihsep

/-- More fuel never changes `manyLoop`'s result, provided the iterated
parser never lengthens the remaining input: each iteration then strictly
shrinks `remaining`, so any fuel above `remaining.length` suffices.  This is
the shallow-embedding rendering of the Go loop's termination. -/
theorem manyLoop_fuel (tag : String) {p : Parser α}
    (hp : ∀ t, (p t).Remaining.length ≤ t.length) (input : Str) :
    ∀ f₁ f₂ remaining acc, remaining.length < f₁ → remaining.length < f₂ →
      manyLoop tag p input f₁ remaining acc = manyLoop tag p input f₂ remaining acc := by
  intro f₁
  induction f₁ with
  | zero =>
    intro f₂ remaining acc h₁ _
    omega
  | succ f₁ ih =>
    intro f₂ remaining acc h₁ h₂
    cases f₂ with
    | zero => omega
    | succ f₂ =>
      simp only [manyLoop]
      split
      · rfl
      · split
        · rfl
        · rename_i hne
          exact ih f₂ _ _ (by have := hp remaining; omega) (by have := hp remaining; omega)

/-- A parser that always fails fatally, as the numeric parsers of
numbers.go do (via `NewFatalError`) on a malformed literal. -/
def fatalP : Parser Char := fun input => Failure (NewFatalError input ["fatal"]) input

/-- Claim C1: `Optional` never propagates any failure — fatal or not.  The
Go body keeps `result.Err` when the error is fatal, but then returns
`Success(result.Output, result.Remaining)`, which constructs a fresh Result
whose Err field is nil, so the kept fatal error is discarded: `Optional`
over a parser that fails fatally returns a plain success, contradicting
both the claim and `Optional`'s own doc comment. -/
theorem claim1_optional_swallows_fatal :
    (∀ (α : Type) (p : Parser α) (s : Str),
      Optional p s = Success (p s).Output (p s).Remaining) ∧
    fatalP ['a'] = Failure (NewFatalError ['a'] ["fatal"]) ['a'] ∧
    IsFatal (NewFatalError ['a'] ["fatal"]) = true ∧
    (Optional fatalP ['a']).Err = none :=
  ⟨fun _ _ _ => rfl, rfl, rfl, rfl⟩

/-- Claim C2, counterexample: `Alternative` does not abort on a fatal
failure — after the first alternative fails fatally on "a", the second one
is still tried and its success is returned, so `Alternative` does not
"return a failure immediately without invoking the remaining parsers". -/
theorem claim2_alternative_cex :
    (fatalP ['a']).Err ≠ none ∧
    IsFatal (NewFatalError ['a'] ["fatal"]) = true ∧
    AlternativeP [fatalP, GChar 'a'] ['a'] = Success 'a' [] := by
  refine ⟨by decide, rfl, by decide⟩

/-- Claim C2, amended: a failing alternative — whether its error is fatal
or recoverable — is simply skipped, and the remaining alternatives are
tried; a succeeding head alternative is returned as-is; and only when all
alternatives fail is a fresh recoverable "Alternative" error, anchored at
the input, produced (also the result on an empty alternative list). -/
theorem claim2_alternative_amended {α : Type} [GoZero α]
    (p : Parser α) (ps : List (Parser α)) (s : Str) :
    ((p s).Err ≠ none → AlternativeP (p :: ps) s = AlternativeP ps s) ∧
    ((p s).Err = none → AlternativeP (p :: ps) s = p s) ∧
    AlternativeP ([] : List (Parser α)) s = Failure (NewError s ["Alternative"]) s ∧
    (∀ qs : List (Parser α), (∀ q ∈ qs, (q s).Err ≠ none) →
      AlternativeP qs s = Failure (NewError s ["Alternative"]) s) ∧
    IsFatal (NewError s ["Alternative"]) = false := by
  refine ⟨?_, ?_, rfl, ?_, rfl⟩
  · intro h
    simp only [AlternativeP, altLoop]
    cases hE : (p s).Err with
    | none => exact absurd hE h
    | some e => rfl
  · intro h
    simp only [AlternativeP, altLoop]
    cases hE : (p s).Err with
    | none => rfl
    | some e => rw [h] at hE; cases hE
  · intro qs
    induction qs with
    | nil => intro _; rfl
    | cons q qs ih =>
      intro hall
      simp only [AlternativeP, altLoop]
      cases hE : (q s).Err with
      | none => exact absurd hE (hall q (List.mem_cons_self q qs))
      | some e => exact ih (fun r hr => hall r (List.mem_cons_of_mem q hr))

/-- Witness for C2's amended theorem at a concrete input: a fatally failing
first alternative is skipped. -/
theorem claim2_alternative_witness :
    AlternativeP [fatalP, GChar 'a'] ['b'] = AlternativeP [GChar 'a'] ['b'] :=
  (claim2_alternative_amended fatalP [GChar 'a'] ['b']).1 (by decide)

/-- For a genuine suffix `r` of `s`, the prefix `s[0 : len(s)-len(r)]`
recovers exactly the part of `s` before `r`. -/
theorem suffix_take_append {r s : Str} (h : r <:+ s) :
    s.take (s.length - r.length) ++ r = s := by
  obtain ⟨t, ht⟩ := h
  subst ht
  have hl : (t ++ r).length - r.length = t.length := by simp
  rw [hl, List.take_left]

/-- Claim C3: a successful parse of a library-built parser leaves a genuine
suffix of its input as remaining input, the consumed text is recoverable as
`s[0 : len(s)-len(r)]`, and `Recognize` returns exactly that consumed text
as its payload. -/
theorem claim3_success_suffix_recognize {α : Type} [GoZero α]
    (p : Parser α) (s : Str) (hlib : Lib p) (hsucc : (p s).Err = none) :
    (p s).Remaining.length ≤ s.length ∧
    (p s).Remaining <:+ s ∧
    s.take (s.length - (p s).Remaining.length) ++ (p s).Remaining = s ∧
    Recognize p s =
      Success (s.take (s.length - (p s).Remaining.length)) (p s).Remaining := by
  have hsuf : (p s).Remaining <:+ s := (libSound hlib s).1
  refine ⟨hsuf.length_le, hsuf, suffix_take_append hsuf, ?_⟩
  simp [Recognize, hsucc]

/-- Witness for C3 at a concrete input: `Token "ab"` on "abc". -/
theorem claim3_witness :
    (Token ['a', 'b'] ['a', 'b', 'c']).Remaining.length ≤ (['a', 'b', 'c'] : Str).length ∧
    (Token ['a', 'b'] ['a', 'b', 'c']).Remaining <:+ ['a', 'b', 'c'] ∧
    (['a', 'b', 'c'] : Str).take
        ((['a', 'b', 'c'] : Str).length -
          (Token ['a', 'b'] ['a', 'b', 'c']).Remaining.length) ++
      (Token ['a', 'b'] ['a', 'b', 'c']).Remaining = ['a', 'b', 'c'] ∧
    Recognize (Token ['a', 'b']) ['a', 'b', 'c'] =
      Success
        ((['a', 'b', 'c'] : Str).take
          ((['a', 'b', 'c'] : Str).length -
            (Token ['a', 'b'] ['a', 'b', 'c']).Remaining.length))
        (Token ['a', 'b'] ['a', 'b', 'c']).Remaining :=
  claim3_success_suffix_recognize (Token ['a', 'b']) ['a', 'b', 'c']
    (Lib.token ['a', 'b']) (by decide)

/-- Claim C4: a failing parse of a library-built parser reports exactly the
original input as its remaining input — no partial consumption is
observable through a failure. -/
theorem claim4_failure_rewinds {α : Type} (p : Parser α) (s : Str) (e : GenericError)
    (hlib : Lib p) (hfail : (p s).Err = some e) : (p s).Remaining = s :=
  (libSound hlib s).2 (by simp [hfail])

/-- Witness for C4 at a concrete input: `Pair` over `Token "ab"` and
`GChar 'x'` on "abc" — the first child consumes "ab" before the second
fails, yet the failure reports the whole original input. -/
theorem claim4_witness :
    (Pair (Token ['a', 'b']) (GChar 'x') ['a', 'b', 'c']).Remaining = ['a', 'b', 'c'] :=
  claim4_failure_rewinds (Pair (Token ['a', 'b']) (GChar 'x')) ['a', 'b', 'c']
    (NewGenericError ['a', 'b', 'c'] ["pair"])
    (Lib.pair (Lib.token ['a', 'b']) (Lib.gchar 'x')) (by decide)

/-- Claim C5: `Many0` never fails because of zero matches (a failing first
iteration yields an empty collection); an iteration that succeeds while
consuming zero input makes it fail with the dedicated "Many0" error at any
loop state; its iteration count is bounded by the input length for any
parser that never lengthens the remaining input (fuel-independence, the
shallow rendering of termination); and `Many0(Digit0())` on "abcdef" fails
via the guard. -/
theorem claim5_many0_guard {α : Type} (p : Parser α) (s : Str) :
    ((p s).Err ≠ none → Many0 p s = Success [] s) ∧
    (∀ fuel remaining acc, (p remaining).Err = none →
      (p remaining).Remaining.length = remaining.length →
      manyLoop "Many0" p s (fuel + 1) remaining acc =
        Failure (NewError s ["Many0"]) s) ∧
    ((∀ t, (p t).Remaining.length ≤ t.length) → ∀ fuel, s.length < fuel →
      manyLoop "Many0" p s fuel s [] = Many0 p s) ∧
    Many0 Digit0 ['a', 'b', 'c', 'd', 'e', 'f'] =
      Failure (NewError ['a', 'b', 'c', 'd', 'e', 'f'] ["Many0"])
        ['a', 'b', 'c', 'd', 'e', 'f'] := by
  refine ⟨?_, ?_, ?_, by decide⟩
  · intro h
    simp only [Many0, manyLoop]
    cases hE : (p s).Err with
    | none => exact absurd hE h
    | some e => rfl
  · intro fuel remaining acc hE hlen
    simp only [manyLoop, hE]
    rw [if_pos hlen]
  · intro hp fuel hfuel
    unfold Many0
    exact manyLoop_fuel "Many0" hp s fuel (s.length + 1) s [] hfuel (by omega)

/-- Witness for C5 at a concrete input: `Digit1` fails on "a", so
`Many0 Digit1` succeeds there with an empty collection. -/
theorem claim5_witness : Many0 Digit1 ['a'] = Success [] ['a'] :=
  (claim5_many0_guard Digit1 ['a']).1 (by decide)

/-- Claim C6, counterexample: with `min = 0` the claim asserts success on
the empty input, but `TakeWhileMN` fails on the empty input regardless of
`min` (its first check is `len(input) == 0`). -/
theorem claim6_twmn_cex :
    TakeWhileMN 0 5 IsDigit [] = Failure (NewError [] ["TakeWhileMN"]) [] ∧
    (TakeWhileMN 0 5 IsDigit []).Err ≠ none := by
  refine ⟨by decide, by decide⟩

/-- Claim C6, amended: the exact behavior of `TakeWhileMN(min, max, pred)`.
Writing `run` for the length of the maximal predicate-satisfying prefix, it
fails exactly when the input is empty (even when `min = 0`), the input is
shorter than `min`, or the run stops strictly before each of `min`, `max`
and the input's end; otherwise it succeeds, consuming `min(run, max)`
units — greedily up to the first non-matching unit or `max` units,
whichever comes first. -/
theorem claim6_twmn_amended (atLeast atMost : Nat) (pred : Char → Bool) (s : Str) :
    TakeWhileMN atLeast atMost pred s =
      if s.length = 0 ∨ s.length < atLeast ∨
         (runLen pred s < atLeast ∧ runLen pred s < atMost ∧ runLen pred s < s.length)
      then Failure (NewError s ["TakeWhileMN"]) s
      else Success (s.take (min (runLen pred s) atMost))
             (s.drop (min (runLen pred s) atMost)) :=
  TakeWhileMN_spec atLeast atMost pred s

/-- Claim C7, counterexample: `Alpha0` (a "0"-variant class parser)
succeeds on the empty input, while `TakeWhileMN` with `min = 0` fails
there, so the two are not extensionally equal on every input. -/
theorem claim7_class_cex :
    (Alpha0 []).Err = none ∧ (TakeWhileMN 0 7 IsAlpha []).Err ≠ none ∧
    Alpha0 [] ≠ TakeWhileMN 0 7 IsAlpha [] := by
  refine ⟨by decide, by decide, by decide⟩

/-- Claim C7, amended: for any bound `max` at least the input's length
(i.e. `max` effectively unbounded), each "0"-variant class parser equals
`TakeWhileMN` with `min = 0` on every NON-empty input (on the empty input
the "0" variants succeed while `TakeWhileMN` fails), and each "1"-variant
agrees with `TakeWhileMN` with `min = 1` on every input — same output,
same remaining input, same success/failure status (the expected-descriptor
strings differ). -/
theorem claim7_class_amended (s : Str) (max : Nat) (hmax : s.length ≤ max) :
    (s ≠ [] → Alpha0 s = TakeWhileMN 0 max IsAlpha s) ∧
    Agrees (Alpha1 s) (TakeWhileMN 1 max IsAlpha s) ∧
    (s ≠ [] → Alphanumeric0 s = TakeWhileMN 0 max IsAlphanumeric s) ∧
    Agrees (Alphanumeric1 s) (TakeWhileMN 1 max IsAlphanumeric s) ∧
    (s ≠ [] → Digit0 s = TakeWhileMN 0 max IsDigit s) ∧
    Agrees (Digit1 s) (TakeWhileMN 1 max IsDigit s) ∧
    (s ≠ [] → HexDigit0 s = TakeWhileMN 0 max IsHexDigit s) ∧
    Agrees (HexDigit1 s) (TakeWhileMN 1 max IsHexDigit s) ∧
    (s ≠ [] → Whitespace0 s = TakeWhileMN 0 max IsWhitespace s) ∧
    Agrees (Whitespace1 s) (TakeWhileMN 1 max IsWhitespace s) :=
  ⟨fun hs => class0_eq_twmn IsAlpha max s hs hmax,
   class1_agrees_twmn "Alpha1" IsAlpha max s hmax,
   fun hs => class0_eq_twmn IsAlphanumeric max s hs hmax,
   class1_agrees_twmn "Digit1" IsAlphanumeric max s hmax,
   fun hs => class0_eq_twmn IsDigit max s hs hmax,
   class1_agrees_twmn "Digit1" IsDigit max s hmax,
   fun hs => class0_eq_twmn IsHexDigit max s hs hmax,
   class1_agrees_twmn "HexDigit1" IsHexDigit max s hmax,
   fun hs => class0_eq_twmn IsWhitespace max s hs hmax,
   class1_agrees_twmn "WhiteSpace1" IsWhitespace max s hmax⟩

/-- Witness for C7's amended theorem at a concrete input. -/
theorem claim7_witness :
    Digit0 ['1', 'a'] = TakeWhileMN 0 5 IsDigit ['1', 'a'] ∧
    Agrees (Digit1 ['1', 'a']) (TakeWhileMN 1 5 IsDigit ['1', 'a']) :=
  ⟨(claim7_class_amended ['1', 'a'] 5 (by decide)).2.2.2.2.1 (by decide),
   (claim7_class_amended ['1', 'a'] 5 (by decide)).2.2.2.2.2.1⟩

/-- Claim C8, counterexample: `SeparatedList0(Alpha0, Char(','))` on the
empty input fails (via the zero-consumption guard, since `Alpha0` succeeds
on the empty input while consuming nothing) instead of succeeding with an
empty list. -/
theorem claim8_seplist_cex :
    SeparatedList0 Alpha0 (GChar ',') [] =
      Failure (NewError [] ["SeparatedList0"]) [] ∧
    (SeparatedList0 Alpha0 (GChar ',') []).Err ≠ none := by
  refine ⟨by decide, by decide⟩

/-- Claim C8, amended: on the empty input, `SeparatedList0(e, sep)`
succeeds with an empty list and zero consumption when `e` fails on the
empty input; when `e` succeeds on the empty input (necessarily consuming
nothing, for any parser that does not lengthen the input) the
zero-consumption guard makes `SeparatedList0` fail instead.
`SeparatedList1(e, sep)` on the empty input always fails. -/
theorem claim8_seplist_amended {α σ : Type} (e : Parser α) (sep : Parser σ)
    (hempty : (e []).Err = none → (e []).Remaining = []) :
    ((e []).Err ≠ none → SeparatedList0 e sep [] = Success [] []) ∧
    ((e []).Err = none →
      SeparatedList0 e sep [] = Failure (NewError [] ["SeparatedList0"]) []) ∧
    (SeparatedList1 e sep []).Err ≠ none := by
  refine ⟨?_, ?_, ?_⟩
  · intro h
    simp only [SeparatedList0]
    cases hE : (e []).Err with
    | none => exact absurd hE h
    | some er => rfl
  · intro h
    have hrem := hempty h
    simp only [SeparatedList0, h]
    rw [if_pos (by rw [hrem])]
  · simp only [SeparatedList1]
    cases hE : (e []).Err with
    | some er => simp
    | none =>
      have hrem := hempty hE
      rw [if_pos (by rw [hrem])]
      simp

/-- Witness for C8's amended theorem at a concrete element parser. -/
theorem claim8_witness :
    SeparatedList0 Digit1 (GChar ',') [] = Success [] [] ∧
    (SeparatedList1 Digit1 (GChar ',') []).Err ≠ none :=
  ⟨(claim8_seplist_amended Digit1 (GChar ',') (by decide)).1 (by decide),
   (claim8_seplist_amended Digit1 (GChar ',') (by decide)).2.2⟩

/-- Claim C9: in the separator/element loop shared by `SeparatedList0` and
`SeparatedList1`, whenever the separator matches while consuming input but
the element parser then fails on what follows, the list ends successfully
with the collected elements and the remaining input rewound to `remaining`
— before that trailing separator, not after it.  Concretely,
`SeparatedList1(Digit1, Char(','))` on "1,a" returns ["1"] with remaining
",a". -/
theorem claim9_trailing_separator :
    (∀ (α σ : Type) (e : Parser α) (sep : Parser σ) (orig remaining : Str)
      (acc : List α) (fuel : Nat),
      (sep remaining).Err = none →
      (sep remaining).Remaining.length ≠ remaining.length →
      (e (sep remaining).Remaining).Err ≠ none →
      sepListLoop e sep orig (fuel + 1) remaining acc = Success acc remaining) ∧
    SeparatedList1 Digit1 (GChar ',') ['1', ',', 'a'] = Success [['1']] [',', 'a'] := by
  constructor
  · intro α σ e sep orig remaining acc fuel hsep hcons helem
    simp only [sepListLoop, hsep]
    rw [if_neg hcons]
    cases hP : (e (sep remaining).Remaining).Err with
    | none => exact absurd hP helem
    | some er => rfl
  · decide

/-- Witness for C9 at a concrete loop state: the separator `,` matches on
",a" but `Digit1` fails on "a", so the loop ends rewound to ",a". -/
theorem claim9_witness :
    sepListLoop Digit1 (GChar ',') [] 1 [',', 'a'] [] = Success [] [',', 'a'] :=
  claim9_trailing_separator.1 Str Char Digit1 (GChar ',') [] [',', 'a'] [] 0
    (by decide) (by decide) (by decide)

/-- Claim C10: when any child of `Pair` or `SeparatedPair` fails, the
combinator discards the child's error entirely and returns a fresh
recoverable error tagged "pair" or "separated pair" (the right-hand child
of `SeparatedPair` is tagged "pair" in the source) anchored at the original
input — so neither fatal severity nor the child's expected descriptors
propagate; `Preceded`, `Terminated` and `Sequence`, by contrast, return the
failing child's error object unchanged. -/
theorem claim10_pair_error_policy {α β σ : Type} [GoZero α] [GoZero β]
    (l : Parser α) (r : Parser β) (sep : Parser σ) (s : Str) :
    ((l s).Err ≠ none → Pair l r s = Failure (NewGenericError s ["pair"]) s) ∧
    ((l s).Err = none → (r (l s).Remaining).Err ≠ none →
      Pair l r s = Failure (NewGenericError s ["pair"]) s) ∧
    ((l s).Err ≠ none →
      SeparatedPair l sep r s = Failure (NewGenericError s ["separated pair"]) s) ∧
    ((l s).Err = none → (sep (l s).Remaining).Err ≠ none →
      SeparatedPair l sep r s = Failure (NewGenericError s ["separated pair"]) s) ∧
    ((l s).Err = none → (sep (l s).Remaining).Err = none →
      (r (sep (l s).Remaining).Remaining).Err ≠ none →
      SeparatedPair l sep r s = Failure (NewGenericError s ["pair"]) s) ∧
    IsFatal (NewGenericError s ["pair"]) = false ∧
    IsFatal (NewGenericError s ["separated pair"]) = false ∧
    (∀ e, (l s).Err = some e → Preceded l r s = Failure e s) ∧
    (∀ e, (l s).Err = none → (r (l s).Remaining).Err = some e →
      Preceded l r s = Failure e s) ∧
    (∀ e, (l s).Err = some e → Terminated l sep s = Failure e s) ∧
    (∀ e, (l s).Err = none → (sep (l s).Remaining).Err = some e →
      Terminated l sep s = Failure e s) ∧
    (∀ e (ps : List (Parser α)), (l s).Err = some e →
      Sequence (l :: ps) s = Failure e s) := by
  refine ⟨?_, ?_, ?_, ?_, ?_, rfl, rfl, ?_, ?_, ?_, ?_, ?_⟩
  · intro h
    cases hE : (l s).Err with
    | none => exact absurd hE h
    | some e => simp [Pair, hE]
  · intro h1 h2
    cases hR : (r (l s).Remaining).Err with
    | none => exact absurd hR h2
    | some e => simp [Pair, h1, hR]
  · intro h
    cases hE : (l s).Err with
    | none => exact absurd hE h
    | some e => simp [SeparatedPair, hE]
  · intro h1 h2
    cases hS : (sep (l s).Remaining).Err with
    | none => exact absurd hS h2
    | some e => simp [SeparatedPair, h1, hS]
  · intro h1 h2 h3
    cases hR : (r (sep (l s).Remaining).Remaining).Err with
    | none => exact absurd hR h3
    | some e => simp [SeparatedPair, h1, h2, hR]
  · intro e hE
    simp [Preceded, hE]
  · intro e h1 h2
    simp [Preceded, h1, h2]
  · intro e hE
    simp [Terminated, hE]
  · intro e h1 h2
    simp [Terminated, h1, h2]
  · intro e ps hE
    simp [Sequence, sequenceLoop, hE]

/-- Witness for C10 at concrete inputs: a fatally failing left child of
`Pair` is replaced by a fresh recoverable "pair" error, while `Preceded`
passes a fatally failing body error through unchanged. -/
theorem claim10_witness :
    Pair fatalP (GChar 'a') ['a'] =
      Failure (NewGenericError ['a'] ["pair"]) ['a'] ∧
    Preceded (GChar 'a') fatalP ['a', 'b'] =
      Failure (NewFatalError ['b'] ["fatal"]) ['a', 'b'] := by
  refine ⟨?_, ?_⟩
  · exact (claim10_pair_error_policy fatalP (GChar 'a') (GChar ',') ['a']).1 (by decide)
  · exact (claim10_pair_error_policy (GChar 'a') fatalP (GChar ',')
      ['a', 'b']).2.2.2.2.2.2.2.2.1 (NewFatalError ['b'] ["fatal"]) (by decide) (by decide)
